import Mathlib

/-!
Verification development for the red-black tree of `src/RBT.hpp`
(42cursus ft_containers).

The C++ tree is a pointer structure with mutable nodes carrying
`parent`, `right`, `left`, `data` and `color` fields.  We embed it as a
heap: a function from node ids (`Nat`) to optional node records, plus a
root pointer and an allocation counter.  A C++ pointer is `Option Nat`
(`none` is `nullptr`).  Every C++ arrow dereference becomes a `look`,
which fails with `Err.deref` when the pointer is null or refers to a
freed node (both are undefined behaviour in the source).  Loops in the
source are modelled with an explicit fuel argument; exhausting fuel
yields `Err.fuel`, which can only distinguish nontermination, never a
successful run.  The element type is instantiated at `Int` with the
default comparator `std::less`, i.e. `(· < ·)`.
-/

namespace RBT

/-- Model of `enum e_color { BLACK, RED }` from RBT.hpp. -/
inductive EColor where
  | BLACK : EColor
  | RED : EColor
deriving DecidableEq

/-- Model of `struct RBNode` from RBT.hpp: parent/right/left pointers,
the stored value (a C++ `T*`, always allocated together with the node,
so inlined here as an `Int`), and the color. -/
structure RBNode where
  parent : Option Nat
  right : Option Nat
  left : Option Nat
  data : Int
  color : EColor
deriving DecidableEq

/-- Model of the `RBTree` object: the `_root` pointer, the heap of
allocated nodes, and a counter producing fresh addresses for `new`. -/
structure RBTree where
  root : Option Nat
  heap : Nat → Option RBNode
  next : Nat

/-- Failure of a run: `deref` models undefined behaviour (dereferencing
a null or dangling pointer), `fuel` models running out of fuel. -/
inductive Err where
  | deref : Err
  | fuel : Err
deriving DecidableEq

/-- Decidable equality of observations. -/
instance {ε α : Type} [DecidableEq ε] [DecidableEq α] :
    DecidableEq (Except ε α) := fun a b =>
  match a, b with
  | .ok x, .ok y =>
    match decEq x y with
    | .isTrue h => .isTrue (congrArg Except.ok h)
    | .isFalse h => .isFalse (fun hh => h (Except.ok.inj hh))
  | .ok _, .error _ => .isFalse (fun hh => Except.noConfusion hh)
  | .error _, .ok _ => .isFalse (fun hh => Except.noConfusion hh)
  | .error e, .error f =>
    match decEq e f with
    | .isTrue h => .isTrue (congrArg Except.error h)
    | .isFalse h => .isFalse (fun hh => h (Except.error.inj hh))

/-- Model of a C++ `p->field` access: fails on `nullptr` and on a
pointer to a node that has been `delete`d. -/
def look (t : RBTree) (p : Option Nat) : Except Err RBNode :=
  match p with
  | none => .error .deref
  | some i =>
    match t.heap i with
    | none => .error .deref
    | some n => .ok n

/-- Overwrite the node stored at address `i`. -/
def writeNode (t : RBTree) (i : Nat) (n : RBNode) : RBTree :=
  { t with heap := fun j => if j = i then some n else t.heap j }

/-- Model of `p->left = q` (dereferences `p`). -/
def setL (t : RBTree) (p q : Option Nat) : Except Err RBTree :=
  match p with
  | none => .error .deref
  | some i =>
    match t.heap i with
    | none => .error .deref
    | some n => .ok (writeNode t i { n with left := q })

/-- Model of `p->right = q` (dereferences `p`). -/
def setR (t : RBTree) (p q : Option Nat) : Except Err RBTree :=
  match p with
  | none => .error .deref
  | some i =>
    match t.heap i with
    | none => .error .deref
    | some n => .ok (writeNode t i { n with right := q })

/-- Model of `p->parent = q` (dereferences `p`). -/
def setP (t : RBTree) (p q : Option Nat) : Except Err RBTree :=
  match p with
  | none => .error .deref
  | some i =>
    match t.heap i with
    | none => .error .deref
    | some n => .ok (writeNode t i { n with parent := q })

/-- Model of `p->color = c` (dereferences `p`). -/
def setC (t : RBTree) (p : Option Nat) (c : EColor) : Except Err RBTree :=
  match p with
  | none => .error .deref
  | some i =>
    match t.heap i with
    | none => .error .deref
    | some n => .ok (writeNode t i { n with color := c })

/-- Model of `RBTree::leftRotate` (RBT.hpp lines 138-156), translated
statement by statement; every arrow dereference of the source is a
`look`/`set` that can fail. -/
def leftRotate (t : RBTree) (p : Option Nat) : Except Err RBTree := do
  let node ← look t p                       -- node_pointer newNode = node->right
  let newNodeP := node.right
  let t ← setR t p (← look t newNodeP).left -- node->right = newNode->left
  let t ← match (← look t newNodeP).left with -- if (newNode->left != nullptr)
    | none => pure t
    | some _ => setP t (← look t newNodeP).left p -- newNode->left->parent = node
  let t ← setP t newNodeP (← look t p).parent -- newNode->parent = node->parent
  let t ← match (← look t p).parent with
    | none => pure { t with root := newNodeP } -- this->_root = newNode
    | some par =>
      if p = (← look t (some par)).left      -- node == node->parent->left
      then setL t (some par) newNodeP        -- node->parent->left = newNode
      else setR t (some par) newNodeP        -- node->parent->right = newNode
  let t ← setL t newNodeP p                  -- newNode->left = node
  setP t p newNodeP                          -- node->parent = newNode

/-- Model of `RBTree::rightRotate` (RBT.hpp lines 101-120), the mirror
image of `leftRotate`. -/
def rightRotate (t : RBTree) (p : Option Nat) : Except Err RBTree := do
  let node ← look t p                       -- node_pointer newNode = node->left
  let newNodeP := node.left
  let t ← setL t p (← look t newNodeP).right -- node->left = newNode->right
  let t ← match (← look t newNodeP).right with -- if (newNode->right != nullptr)
    | none => pure t
    | some _ => setP t (← look t newNodeP).right p -- newNode->right->parent = node
  let t ← setP t newNodeP (← look t p).parent -- newNode->parent = node->parent
  let t ← match (← look t p).parent with
    | none => pure { t with root := newNodeP } -- this->_root = newNode
    | some par =>
      if p = (← look t (some par)).right     -- node == node->parent->right
      then setR t (some par) newNodeP        -- node->parent->right = newNode
      else setL t (some par) newNodeP        -- node->parent->left = newNode
  let t ← setR t newNodeP p                  -- newNode->right = node
  setP t p newNodeP                          -- node->parent = newNode

/-- Model of the `while (k->parent->color == RED)` loop of
`RBTree::fixInsertionViolations` (RBT.hpp lines 159-213).  Each arrow
dereference of the source is a `look`; the trailing
`if (k == this->_root) break;` of the loop body ends an iteration. -/
def fixInsLoop (t : RBTree) (k : Option Nat) : Nat → Except Err RBTree
  | 0 => .error .fuel
  | fuel+1 => do
    let nk ← look t k
    let np ← look t nk.parent                     -- k->parent->color
    if np.color = .RED then do
      let ng ← look t np.parent                   -- k->parent->parent
      let (t, k) ←
        (if nk.parent = ng.right then do          -- parent is right child of grand-parent
          let uncle := ng.left                    -- uncle = k->parent->parent->left
          let uncleRed ← (match uncle with        -- uncle && uncle->color == RED
            | none => pure false
            | some _ => do pure (decide ((← look t uncle).color = .RED)))
          if uncleRed then do
            let t ← setC t uncle .BLACK           -- uncle->color = BLACK
            let t ← setC t (← look t k).parent .BLACK -- k->parent->color = BLACK
            let t ← setC t (← look t (← look t k).parent).parent .RED
            let k := (← look t (← look t k).parent).parent -- k = k->parent->parent
            pure (t, k)
          else do
            let (t, k) ←
              (if k = (← look t (← look t k).parent).left then do -- k == k->parent->left
                let k := (← look t k).parent      -- k = k->parent
                let t ← rightRotate t k
                pure (t, k)
              else pure (t, k))
            let t ← setC t (← look t k).parent .BLACK -- k->parent->color = BLACK
            let t ← setC t (← look t (← look t k).parent).parent .RED
            let t ← leftRotate t (← look t (← look t k).parent).parent
            pure (t, k)
         else do                                   -- mirror scenario
          let uncle := ng.right                    -- uncle = k->parent->parent->right
          let uncleRed ← (match uncle with
            | none => pure false
            | some _ => do pure (decide ((← look t uncle).color = .RED)))
          if uncleRed then do
            let t ← setC t uncle .BLACK
            let t ← setC t (← look t k).parent .BLACK
            let t ← setC t (← look t (← look t k).parent).parent .RED
            let k := (← look t (← look t k).parent).parent
            pure (t, k)
          else do
            let (t, k) ←
              (if k = (← look t (← look t k).parent).right then do -- k == k->parent->right
                let k := (← look t k).parent
                let t ← leftRotate t k
                pure (t, k)
              else pure (t, k))
            let t ← setC t (← look t k).parent .BLACK
            let t ← setC t (← look t (← look t k).parent).parent .RED
            let t ← rightRotate t (← look t (← look t k).parent).parent
            pure (t, k))
      if k = t.root then pure t                    -- if (k == this->_root) break
      else fixInsLoop t k fuel
    else pure t

/-- Model of `RBTree::fixInsertionViolations`: the loop followed by the
unconditional `this->_root->color = BLACK`. -/
def fixInsertionViolations (t : RBTree) (k : Option Nat) (fuel : Nat) :
    Except Err RBTree := do
  let t ← fixInsLoop t k fuel
  setC t t.root .BLACK

/-- Model of `RBTree::createNode` (RBT.hpp lines 66-72): a fresh node,
red by default, with null links. -/
def createNode (t : RBTree) (val : Int) : Nat × RBTree :=
  (t.next,
   { root := t.root,
     heap := fun j =>
       if j = t.next then some ⟨none, none, none, val, .RED⟩ else t.heap j,
     next := t.next + 1 })

/-- Model of the BST descent loop of `RBTree::insert`
(`while (curr_node != nullptr) { parent = curr_node; ... }`),
returning the final `parent` pointer. -/
def insertDescend (t : RBTree) (val : Int) :
    Nat → Option Nat → Option Nat → Except Err (Option Nat)
  | _, none, parent => .ok parent
  | 0, some _, _ => .error .fuel
  | fuel+1, some i, _ => do
    let n ← look t (some i)
    if val < n.data then insertDescend t val fuel n.left (some i)
    else insertDescend t val fuel n.right (some i)

/-- Model of `RBTree::insert` (RBT.hpp lines 333-369): allocate a red
node, BST-descend with the comparator, attach, then run insertion
fix-up.  The comparator is `std::less<int>`, i.e. `(· < ·)`. -/
def insert (t : RBTree) (val : Int) (fuel : Nat) : Except Err RBTree := do
  let (nodeId, t) := createNode t val
  match t.root with
  | none => do
    let t := { t with root := some nodeId }       -- this->_root = node
    setC t (some nodeId) .BLACK                   -- node->color = BLACK
  | some _ => do
    let parent ← insertDescend t val fuel t.root none
    let t ← setP t (some nodeId) parent           -- node->parent = parent
    let np ← look t parent                        -- comp(*(node->data), *(parent->data))
    let t ← (if val < np.data then setL t parent (some nodeId)
             else setR t parent (some nodeId))
    fixInsertionViolations t (some nodeId) fuel

/-- Model of `RBTree::replaceNode` (RBT.hpp lines 293-306). -/
def replaceNode (t : RBTree) (node replacement : Option Nat) :
    Except Err RBTree := do
  let t ←
    (if node = t.root then pure { t with root := replacement }
     else do
       let n ← look t node
       let np ← look t n.parent                    -- node->parent->left
       if node = np.left then setL t n.parent replacement
       else setR t n.parent replacement)
  match replacement with
  | none => pure t
  | some _ => do
    let n ← look t node
    setP t replacement n.parent                    -- replacement->parent = node->parent

/-- Model of the `while (x != this->_root && x->color == BLACK)` loop of
`RBTree::fixDeleteViolations` (RBT.hpp lines 217-289).  Returns the
final `(tree, x)` so the caller can run `x->color = BLACK`.  The
source dereferences `x`, the sibling `s`, and the sibling children
without null checks; each such dereference is a fallible `look`. -/
def fixDelLoop (t : RBTree) (x : Option Nat) : Nat → Except Err (RBTree × Option Nat)
  | 0 => .error .fuel
  | fuel+1 => do
    if x = t.root then pure (t, x)
    else do
      let nx ← look t x                            -- x->color
      if nx.color ≠ .BLACK then pure (t, x)
      else do
        if x = (← look t (← look t x).parent).left then do -- x == x->parent->left
          let s := (← look t (← look t x).parent).right    -- s = x->parent->right
          let (t, s) ←
            (if (← look t s).color = .RED then do          -- s->color == RED
              let t ← setC t s .BLACK
              let t ← setC t (← look t x).parent .RED
              let t ← leftRotate t (← look t x).parent
              let s := (← look t (← look t x).parent).right
              pure (t, s)
            else pure (t, s))
          let ns ← look t s
          let nsl ← look t ns.left                         -- s->left->color (no null check)
          let bothBlack ←
            (if nsl.color = .BLACK then do                 -- && short-circuits
              let nsr ← look t ns.right                    -- s->right->color (no null check)
              pure (decide (nsr.color = .BLACK))
            else pure false)
          if bothBlack then do
            let t ← setC t s .RED                          -- s->color = RED
            let x := (← look t x).parent                   -- x = x->parent
            fixDelLoop t x fuel
          else do
            let (t, s) ←
              (if (← look t (← look t s).right).color = .BLACK then do
                let t ← setC t (← look t s).left .BLACK    -- s->left->color = BLACK
                let t ← setC t s .RED
                let t ← rightRotate t s
                let s := (← look t (← look t x).parent).right
                pure (t, s)
              else pure (t, s))
            let t ← setC t s (← look t (← look t x).parent).color -- s->color = x->parent->color
            let t ← setC t (← look t x).parent .BLACK
            let t ← setC t (← look t s).right .BLACK       -- s->right->color = BLACK
            let t ← leftRotate t (← look t x).parent
            let x := t.root                                -- x = this->_root
            fixDelLoop t x fuel
        else do                                            -- mirror scenario
          let s := (← look t (← look t x).parent).left
          let (t, s) ←
            (if (← look t s).color = .RED then do
              let t ← setC t s .BLACK
              let t ← setC t (← look t x).parent .RED
              let t ← rightRotate t (← look t x).parent
              let s := (← look t (← look t x).parent).left
              pure (t, s)
            else pure (t, s))
          let ns ← look t s
          let nsl ← look t ns.left                         -- source also tests s->left first here
          let bothBlack ←
            (if nsl.color = .BLACK then do
              let nsr ← look t ns.right
              pure (decide (nsr.color = .BLACK))
            else pure false)
          if bothBlack then do
            let t ← setC t s .RED
            let x := (← look t x).parent
            fixDelLoop t x fuel
          else do
            let (t, s) ←
              (if (← look t (← look t s).left).color = .BLACK then do
                let t ← setC t (← look t s).right .BLACK   -- s->right->color = BLACK
                let t ← setC t s .RED
                let t ← leftRotate t s
                let s := (← look t (← look t x).parent).left
                pure (t, s)
              else pure (t, s))
            let t ← setC t s (← look t (← look t x).parent).color
            let t ← setC t (← look t x).parent .BLACK
            let t ← setC t (← look t s).left .BLACK        -- s->left->color = BLACK
            let t ← rightRotate t (← look t x).parent
            let x := t.root
            fixDelLoop t x fuel

/-- Model of `RBTree::fixDeleteViolations`: the loop followed by the
unconditional `x->color = BLACK` (which dereferences `x`). -/
def fixDeleteViolations (t : RBTree) (x : Option Nat) (fuel : Nat) :
    Except Err RBTree := do
  let (t, x) ← fixDelLoop t x fuel
  setC t x .BLACK

/-- Model of `while (successor->left != nullptr) successor = successor->left`
inside `RBTree::remove`. -/
def succDescend (t : RBTree) : Nat → Option Nat → Except Err (Option Nat)
  | 0, _ => .error .fuel
  | fuel+1, p => do
    let n ← look t p
    match n.left with
    | none => pure p
    | some j => succDescend t fuel (some j)

/-- Model of `RBTree::deleteNode`: the node is freed (its address now
dangles; later dereferences fail). -/
def deleteNode (t : RBTree) (i : Nat) : RBTree :=
  { t with heap := fun j => if j = i then none else t.heap j }

/-- Model of `RBTree::remove(node_pointer)` (RBT.hpp lines 371-420),
including the two-child case with its literal
`successor->right->parent = node->right;` assignment. -/
def removeNode (t : RBTree) (node : Option Nat) (fuel : Nat) :
    Except Err RBTree := do
  match node with
  | none => pure t                                 -- if (node == nullptr) return
  | some nid => do
    let n ← look t node
    let (t, newNode, originalColor) ←
      (if n.left = none ∧ n.right = none then do   -- leaf
        let t ← replaceNode t node none
        pure (t, (none : Option Nat), n.color)
      else if n.right = none then do               -- only left child
        let t ← replaceNode t node n.left
        pure (t, n.left, n.color)
      else if n.left = none then do                -- only right child
        let t ← replaceNode t node n.right
        pure (t, n.right, n.color)
      else do                                      -- two children
        let successor ← succDescend t fuel n.right
        let ns ← look t successor
        let originalColor := ns.color              -- originalColor = successor->color
        let newNode := ns.right                    -- newNode = successor->right
        let t ←
          (if ns.parent ≠ node then do             -- successor->parent != node
            let t ← replaceNode t successor ns.right
            let t ← setR t successor (← look t node).right -- successor->right = node->right
            let t ← setP t (← look t successor).right (← look t node).right
                          -- successor->right->parent = node->right (sic, the source)
            pure t
          else pure t)
        let t ← replaceNode t node successor
        let t ← setL t successor (← look t node).left      -- successor->left = node->left
        let t ← setP t (← look t successor).left successor -- successor->left->parent = successor
        let t ← setC t successor (← look t node).color     -- successor->color = node->color
        pure (t, newNode, originalColor))
    let t := deleteNode t nid                      -- this->deleteNode(node)
    if originalColor = .BLACK then fixDeleteViolations t newNode fuel
    else pure t

/-- Model of the descent loop of `RBTree::search` (RBT.hpp line 438).
The source line is
`while (curr != nullptr && (!comp(val, *(curr->data) && !comp(*(curr->data), val)))`
which has six opening and five closing parentheses and therefore does
not parse; the minimal completion (appending the missing parenthesis at
the end, which is where a compiler requests it) parses as
`!comp(val, *(curr->data) && !comp(*(curr->data), val))`:
the second argument of the outer `comp` is the `bool`
`(*(curr->data) != 0) && !comp(*(curr->data), val)` converted to `int`
0 or 1.  That reading is modelled here.  (Under the other repair,
`!comp(val, *(curr->data)) && !comp(*(curr->data), val)`, the loop
would instead stop at the first non-equivalent node and return it, so
the function is wrong under either reading; see the C2 theorems.) -/
def searchLoop (t : RBTree) (val : Int) : Nat → Option Nat → Except Err (Option Nat)
  | 0, _ => .error .fuel
  | fuel+1, curr =>
    match curr with
    | none => pure none
    | some i => do
      let n ← look t (some i)
      let inner : Int := if n.data ≠ 0 ∧ ¬(n.data < val) then 1 else 0
      if ¬(val < inner) then
        if val < n.data then searchLoop t val fuel n.left
        else searchLoop t val fuel n.right
      else pure (some i)

/-- Model of `RBTree::search` (RBT.hpp lines 431-446): the root is first
compared with `operator==`, then the (malformed) descent loop runs. -/
def search (t : RBTree) (val : Int) (fuel : Nat) : Except Err (Option Nat) :=
  match t.root with
  | none => pure t.root
  | some _ => do
    let n ← look t t.root
    if n.data = val then pure t.root
    else searchLoop t val fuel t.root

/-- Model of `RBTree::remove(const T&)` (RBT.hpp lines 422-428). -/
def removeVal (t : RBTree) (val : Int) (fuel : Nat) : Except Err RBTree := do
  let node ← search t val fuel
  match node with
  | none => pure t
  | some _ => removeNode t node fuel

/-- Model of the private recursive `RBTree::size(node_pointer)`
(RBT.hpp lines 309-314). -/
def sizeNode (t : RBTree) : Nat → Option Nat → Except Err Nat
  | _, none => .ok 0
  | 0, some _ => .error .fuel
  | fuel+1, some i => do
    let n ← look t (some i)
    let a ← sizeNode t fuel n.left
    let b ← sizeNode t fuel n.right
    pure (a + b + 1)

/-- Model of the public `RBTree::size()`. -/
def size (t : RBTree) (fuel : Nat) : Except Err Nat := sizeNode t fuel t.root

/-- Model of `while (curr->left) curr = curr->left`, the leftmost
descent shared by `RBTree::first` and `RBTree::next_inorder`. -/
def firstDescend (t : RBTree) : Nat → Option Nat → Except Err (Option Nat)
  | 0, _ => .error .fuel
  | fuel+1, p => do
    let n ← look t p
    match n.left with
    | none => pure p
    | some j => firstDescend t fuel (some j)

/-- Model of `RBTree::first` (RBT.hpp lines 473-483). -/
def first (t : RBTree) (fuel : Nat) : Except Err (Option Nat) :=
  match t.root with
  | none => .ok none
  | some _ => firstDescend t fuel t.root

/-- Model of the parent climb of `RBTree::next_inorder`:
`while (node->parent != nullptr && node == node->parent->right)
 node = node->parent; node = node->parent;`. -/
def climb (t : RBTree) : Nat → Option Nat → Except Err (Option Nat)
  | 0, _ => .error .fuel
  | fuel+1, p => do
    let n ← look t p
    match n.parent with
    | none => pure n.parent
    | some q => do
      let nq ← look t (some q)
      if p = nq.right then climb t fuel (some q)
      else pure n.parent

/-- Model of `RBTree::next_inorder` (RBT.hpp lines 504-527). -/
def next_inorder (t : RBTree) (p : Option Nat) (fuel : Nat) :
    Except Err (Option Nat) :=
  match p with
  | none => .ok none                               -- if (node == nullptr) return nullptr
  | some i => do
    let n ← look t (some i)
    match n.right with
    | some r => firstDescend t fuel (some r)
    | none => climb t fuel (some i)

/-! ### Observation layer

The remaining definitions are not translations of source functions but
the vocabulary in which the specification speaks about the tree: the
in-order sequence of a subtree reached through child pointers, the
red-black invariant checker of spec section 3, and a driver running a
list of public operations from the empty tree. -/

/-- In-order sequence of `(address, value)` pairs of the subtree reached
from pointer `p` by following child pointers.  Fails with `deref` on a
dangling child pointer and with `fuel` when the structure is deeper than
the fuel (in particular on cyclic structures). -/
def seq (t : RBTree) : Nat → Option Nat → Except Err (List (Nat × Int))
  | _, none => .ok []
  | 0, some _ => .error .fuel
  | fuel+1, some i =>
    match t.heap i with
    | none => .error .deref
    | some n =>
      match seq t fuel n.left, seq t fuel n.right with
      | .ok L, .ok R => .ok (L ++ (i, n.data) :: R)
      | .error e, _ => .error e
      | .ok _, .error e => .error e

/-- In-order sequence of stored values of the whole tree. -/
def vals (t : RBTree) (fuel : Nat) : Except Err (List Int) :=
  (seq t fuel t.root).map (List.map Prod.snd)

/-- Color of the node a pointer refers to; an absent (nil) child is
black (spec section 3, invariant 2). -/
def colorOf (t : RBTree) (p : Option Nat) : Except Err EColor :=
  match p with
  | none => .ok .BLACK
  | some i =>
    match t.heap i with
    | none => .error .deref
    | some n => .ok n.color

/-- Red-black structural check of a subtree: returns the black-height
(counting the nil leaf as one black node) paired with the conjunction
of: equal black-heights of the two children and no red node with a red
child.  Fails if the subtree structure cannot even be traversed. -/
def chk (t : RBTree) : Nat → Option Nat → Except Err (Nat × Bool)
  | _, none => .ok (1, true)
  | 0, some _ => .error .fuel
  | fuel+1, some i =>
    match t.heap i with
    | none => .error .deref
    | some n => do
      let (hl, bl) ← chk t fuel n.left
      let (hr, br) ← chk t fuel n.right
      let cl ← colorOf t n.left
      let cr ← colorOf t n.right
      pure (hl + (if n.color = .BLACK then 1 else 0),
        bl && br && decide (hl = hr) &&
          (if n.color = .RED
           then decide (cl = .BLACK) && decide (cr = .BLACK)
           else true))

/-- Whole-tree red-black invariant check: root (if present) black, no
red node with a red child, equal black counts on all paths (invariants
1, 3 and 4 of spec section 3). -/
def isRB (t : RBTree) (fuel : Nat) : Except Err Bool := do
  let rc ← colorOf t t.root
  let (_, ok) ← chk t fuel t.root
  pure (decide (rc = .BLACK) && ok)

/-- A public operation of the tree API: insert by value, remove by node
handle, remove by value (spec section 6). -/
inductive Op where
  | insOp : Int → Op
  | remNodeOp : Nat → Op
  | remValOp : Int → Op

/-- The freshly constructed tree (`RBTree() : _root(nullptr)`). -/
def emptyTree : RBTree := { root := none, heap := fun _ => none, next := 0 }

/-- Fuel used by concrete runs; the runs below iterate far less. -/
def F0 : Nat := 32

/-- Run one public operation. -/
def stepOp (t : RBTree) : Op → Except Err RBTree
  | .insOp v => insert t v F0
  | .remNodeOp i => removeNode t (some i) F0
  | .remValOp v => removeVal t v F0

/-- Run a list of public operations from a given tree. -/
def runOps (t : RBTree) : List Op → Except Err RBTree
  | [] => .ok t
  | op :: rest => do
    let t ← stepOp t op
    runOps t rest

/-- Iteration as the spec prescribes (section 8): repeated
`next_inorder` from a starting pointer, collecting visited values until
nil is reached; fails with `fuel` when nil is not reached within the
given number of visits. -/
def iterInorder (t : RBTree) : Nat → Option Nat → Except Err (List Int)
  | _, none => .ok []
  | 0, some _ => .error .fuel
  | n+1, some i => do
    let nd ← look t (some i)
    let p ← next_inorder t (some i) F0
    let rest ← iterInorder t n p
    pure (nd.data :: rest)

/-- The values of the at most `n` first visits of the same iteration
(stops collecting instead of failing when more nodes follow). -/
def iterFirstN (t : RBTree) : Nat → Option Nat → Except Err (List Int)
  | _, none => .ok []
  | 0, some _ => .ok []
  | n+1, some i => do
    let nd ← look t (some i)
    let p ← next_inorder t (some i) F0
    let rest ← iterFirstN t n p
    pure (nd.data :: rest)

/-- Is a list of values strictly increasing under the comparator. -/
def strictIncr : List Int → Bool
  | a :: b :: rest => decide (a < b) && strictIncr (b :: rest)
  | _ => true

/-- Is a list of values non-decreasing under the comparator. -/
def nonDecr : List Int → Bool
  | a :: b :: rest => decide (a ≤ b) && nonDecr (b :: rest)
  | _ => true

/-- Map a successful run to an observation of the final tree. -/
def peek {α : Type} (r : Except Err RBTree) (f : RBTree → α) : Except Err α :=
  r.map f

/-- Map a successful run through a second fallible observation. -/
def peekE {α : Type} (r : Except Err RBTree) (f : RBTree → Except Err α) :
    Except Err α := r.bind f

/-- Shorthand observation: did the run return at all, and how. -/
def ran (r : Except Err RBTree) : Except Err Unit := r.map fun _ => ()

/-! ### Model of the bool-returning insert of the missing `RedBlackTree.hpp`

The repository's map (`src/unnamed/part_000`) is built on a tree header
`RedBlackTree.hpp` that is not present under `src/`; the map documents
its insert as `tree.insert returns true if added, false if already
present` and uses the returned value as the `bool` of
`ft::pair<iterator, bool> insert`.  Claim C6 is about that bool. -/

/-- Modelled from the spec: the node structure of the bool-returning
tree of `RedBlackTree.hpp` (missing from src/): a binary search tree
node holding a value and a color (spec section 3).  Parent links play
no role in the insertion-occurred bool and are omitted here. -/
inductive BT where
  | nil : BT
  | node : BT → Int → EColor → BT → BT

/-- Number of nodes of the modelled tree. -/
def BT.count : BT → Nat
  | .nil => 0
  | .node l _ _ r => l.count + r.count + 1

/-- Modelled from the spec: the BST descent of `insert` (spec section
4.2) for the bool-returning tree of `RedBlackTree.hpp` (missing from
src/): descend with the ordering predicate; a value equivalent to a
stored one (neither side sorts before the other) is rejected without
creating a node (`false if already present`, associative-container
semantics of spec sections 3 and 4.2); otherwise a new red node is
created at the reached leaf position and `true` is returned. -/
def bstInsert : BT → Int → Bool × BT
  | .nil, v => (true, .node .nil v .RED .nil)
  | .node l x c r, v =>
    if v < x then
      let p := bstInsert l v
      (p.1, .node p.2 x c r)
    else if x < v then
      let p := bstInsert r v
      (p.1, .node l x c p.2)
    else (false, .node l x c r)

/-- Force the root black (end of insertion fix-up, spec section 4.2). -/
def blackenRoot : BT → BT
  | .nil => .nil
  | .node l x _ r => .node l x .BLACK r

/-- Modelled from the spec: `insert(value) -> bool` of the missing
`RedBlackTree.hpp`: BST placement, then fix-up.  Per spec section 4.1
the fix-up is recolorings plus rotations only, both of which preserve
the set of nodes and hence the node count, so for the count-level claim
C6 the fix-up is represented by its only count-visible effect, the
final unconditional blackening of the root. -/
def insertSpecModel (t : BT) (v : Int) : Bool × BT :=
  let p := bstInsert t v
  (p.1, blackenRoot p.2)

/-- Blackening the root does not change the node count. -/
lemma count_blackenRoot (t : BT) : (blackenRoot t).count = t.count := by
  cases t <;> rfl

/-- The returned bool of the modelled BST insert tells exactly whether
the node count grew by one. -/
lemma bstInsert_cases (t : BT) (v : Int) :
    ((bstInsert t v).1 = true ∧ (bstInsert t v).2.count = t.count + 1) ∨
    ((bstInsert t v).1 = false ∧ (bstInsert t v).2.count = t.count) := by
  induction t with
  | nil => exact Or.inl ⟨rfl, rfl⟩
  | node l x c r ihl ihr =>
    by_cases h1 : v < x
    · rcases ihl with ⟨hb, hc⟩ | ⟨hb, hc⟩
      · exact Or.inl ⟨by simp [bstInsert, h1, hb], by simp [bstInsert, h1, BT.count, hc]; omega⟩
      · exact Or.inr ⟨by simp [bstInsert, h1, hb], by simp [bstInsert, h1, BT.count, hc]⟩
    · by_cases h2 : x < v
      · rcases ihr with ⟨hb, hc⟩ | ⟨hb, hc⟩
        · exact Or.inl ⟨by simp [bstInsert, h1, h2, hb], by simp [bstInsert, h1, h2, BT.count, hc]; omega⟩
        · exact Or.inr ⟨by simp [bstInsert, h1, h2, hb], by simp [bstInsert, h1, h2, BT.count, hc]⟩
      · exact Or.inr ⟨by simp [bstInsert, h1, h2], by simp [bstInsert, h1, h2, BT.count]⟩

/-! ### Infrastructure for the rotation claim

The rotation theorem (claim C8) is proved for every heap that renders a
duplicate-free subtree around the rotated node; the lemmas below supply
fuel monotonicity of the rendering, a frame rule (rendering only reads
the `left`, `right` and `data` fields of the rendered addresses), and
the splitting of a duplicate-free address list. -/

/-- Rendering a null pointer needs no fuel. -/
lemma seq_none (t : RBTree) (f : Nat) : seq t f none = .ok [] := by
  cases f <;> rfl

/-- Unfolding of the rendering at a non-null pointer. -/
lemma seq_some (t : RBTree) (f i : Nat) :
    seq t (f+1) (some i) =
      match t.heap i with
      | none => .error .deref
      | some n =>
        match seq t f n.left, seq t f n.right with
        | .ok L, .ok R => .ok (L ++ (i, n.data) :: R)
        | .error e, _ => .error e
        | .ok _, .error e => .error e := rfl

/-- A successful rendering stays successful with one more unit of fuel. -/
lemma seq_mono {t : RBTree} {f : Nat} {p : Option Nat} {l : List (Nat × Int)}
    (h : seq t f p = .ok l) : seq t (f+1) p = .ok l := by
  induction f generalizing p l with
  | zero =>
    cases p with
    | none => rw [seq_none] at h; rw [seq_none]; exact h
    | some i => simp [seq] at h
  | succ f ih =>
    cases p with
    | none => rw [seq_none] at h; rw [seq_none]; exact h
    | some i =>
      rw [seq_some] at h
      rw [seq_some]
      cases hh : t.heap i with
      | none => simp [hh] at h
      | some n =>
        simp only [hh] at h ⊢
        cases hL : seq t f n.left with
        | error e => simp [hL] at h
        | ok L =>
          simp only [hL] at h
          cases hR : seq t f n.right with
          | error e => simp [hR] at h
          | ok R =>
            simp only [hR] at h
            simp only [ih hL, ih hR]
            exact h

/-- A successful rendering stays successful with any larger fuel. -/
lemma seq_mono_le {t : RBTree} {f f' : Nat} {p : Option Nat}
    {l : List (Nat × Int)} (hf : f ≤ f') (h : seq t f p = .ok l) :
    seq t f' p = .ok l := by
  induction f' with
  | zero => cases Nat.le_zero.mp hf; exact h
  | succ f' ih =>
    rcases Nat.lt_or_ge f (f'+1) with hlt | hge
    · exact seq_mono (ih (Nat.lt_succ_iff.mp hlt))
    · cases Nat.le_antisymm hf hge; exact h

/-- Two heaps agree, at one address, on every field the rendering
reads. -/
def sameKids (t u : RBTree) (i : Nat) : Prop :=
  (t.heap i).map (fun n => (n.left, n.right, n.data)) =
  (u.heap i).map (fun n => (n.left, n.right, n.data))

/-- Frame rule: a rendering survives any heap change that leaves the
`left`, `right` and `data` fields of all rendered addresses intact. -/
lemma seq_frame {t u : RBTree} {f : Nat} {p : Option Nat}
    {l : List (Nat × Int)} (h : seq t f p = .ok l)
    (hag : ∀ q ∈ l.map Prod.fst, sameKids t u q) : seq u f p = .ok l := by
  induction f generalizing p l with
  | zero =>
    cases p with
    | none => rw [seq_none] at h; rw [seq_none]; exact h
    | some i => simp [seq] at h
  | succ f ih =>
    cases p with
    | none => rw [seq_none] at h; rw [seq_none]; exact h
    | some i =>
      rw [seq_some] at h
      rw [seq_some]
      cases hh : t.heap i with
      | none => simp [hh] at h
      | some n =>
        simp only [hh] at h
        cases hL : seq t f n.left with
        | error e => simp [hL] at h
        | ok L =>
          simp only [hL] at h
          cases hR : seq t f n.right with
          | error e => simp [hR] at h
          | ok R =>
            simp only [hR] at h
            have hl : L ++ (i, n.data) :: R = l := by
              simpa using h
            have hisame : sameKids t u i := by
              refine hag i ?_
              rw [← hl]; simp
            unfold sameKids at hisame
            rw [hh] at hisame
            cases hh' : u.heap i with
            | none => rw [hh'] at hisame; cases hisame
            | some n' =>
              rw [hh'] at hisame
              have hk : n.left = n'.left ∧ n.right = n'.right ∧ n.data = n'.data := by
                simpa using hisame
              obtain ⟨k1, k2, k3⟩ := hk
              have hL' : seq u f n'.left = .ok L := by
                rw [← k1]
                refine ih hL (fun q hq => hag q ?_)
                rw [← hl]; simp only [List.map_append, List.map_cons]
                exact List.mem_append_left _ hq
              have hR' : seq u f n'.right = .ok R := by
                rw [← k2]
                refine ih hR (fun q hq => hag q ?_)
                rw [← hl]; simp only [List.map_append, List.map_cons]
                refine List.mem_append_right _ (List.mem_cons_of_mem _ hq)
              simp only [hL', hR', ← k3, hl]

/-- Splitting a duplicate-free list of the shape produced by rendering a
node `x` whose right child is `y`. -/
lemma nodup_shape {A B C : List Nat} {x y : Nat}
    (h : (A ++ x :: (B ++ y :: C)).Nodup) :
    x ∉ A ∧ x ∉ B ∧ x ∉ C ∧ y ∉ A ∧ y ∉ B ∧ y ∉ C ∧ x ≠ y ∧
    (∀ q ∈ A, q ∉ B) ∧ (∀ q ∈ A, q ∉ C) ∧ (∀ q ∈ B, q ∉ C) := by
  have h1 : List.Disjoint A (x :: (B ++ y :: C)) := (List.nodup_append.mp h).2.2
  have h2 : (x :: (B ++ y :: C)).Nodup := (List.nodup_append.mp h).2.1
  have h3 : x ∉ B ++ y :: C := (List.nodup_cons.mp h2).1
  have h4 : (B ++ y :: C).Nodup := (List.nodup_cons.mp h2).2
  have h5 : List.Disjoint B (y :: C) := (List.nodup_append.mp h4).2.2
  have h6 : (y :: C).Nodup := (List.nodup_append.mp h4).2.1
  have h7 : y ∉ C := (List.nodup_cons.mp h6).1
  refine ⟨?_, ?_, ?_, ?_, ?_, h7, ?_, ?_, ?_, ?_⟩
  · exact fun hxA => h1 hxA (List.mem_cons_self x _)
  · exact fun hxB => h3 (List.mem_append_left _ hxB)
  · exact fun hxC => h3 (List.mem_append_right _ (List.mem_cons_of_mem _ hxC))
  · exact fun hyA => h1 hyA (List.mem_cons_of_mem _
      (List.mem_append_right _ (List.mem_cons_self y _)))
  · exact fun hyB => h5 hyB (List.mem_cons_self y _)
  · exact fun he => h3 (List.mem_append_right _ (he ▸ List.mem_cons_self x _))
  · exact fun q hqA hqB => h1 hqA (List.mem_cons_of_mem _ (List.mem_append_left _ hqB))
  · exact fun q hqA hqC => h1 hqA (List.mem_cons_of_mem _
      (List.mem_append_right _ (List.mem_cons_of_mem _ hqC)))
  · exact fun q hqB hqC => h5 hqB (List.mem_cons_of_mem _ hqC)

/-- Explicit description of the heap produced by `leftRotate` at a node
`x` (stored as `nx`) whose right child is `y` (stored as `ny`), written
in the exact write order of the source; it agrees with `leftRotate`
whenever `x`, `y`, the left child of `y` and the parent of `x` are
pairwise distinct live addresses (`leftRotate_eq`). -/
def rotatedL (t : RBTree) (x y : Nat) (nx ny : RBNode) : RBTree :=
  let t1 := writeNode t x { nx with right := ny.left }
  let t2 := match ny.left with
    | none => t1
    | some b =>
      match t.heap b with
      | none => t1
      | some nb => writeNode t1 b { nb with parent := some x }
  let t3 := writeNode t2 y { ny with parent := nx.parent }
  let t4 := match nx.parent with
    | none => { t3 with root := some y }
    | some p =>
      match t.heap p with
      | none => t3
      | some np =>
        if some x = np.left then writeNode t3 p { np with left := some y }
        else writeNode t3 p { np with right := some y }
  let t5 := writeNode t4 y { ny with parent := nx.parent, left := some x }
  writeNode t5 x { nx with right := ny.left, parent := some y }

/-- Mirror image of `rotatedL` for `rightRotate`. -/
def rotatedR (t : RBTree) (x y : Nat) (nx ny : RBNode) : RBTree :=
  let t1 := writeNode t x { nx with left := ny.right }
  let t2 := match ny.right with
    | none => t1
    | some b =>
      match t.heap b with
      | none => t1
      | some nb => writeNode t1 b { nb with parent := some x }
  let t3 := writeNode t2 y { ny with parent := nx.parent }
  let t4 := match nx.parent with
    | none => { t3 with root := some y }
    | some p =>
      match t.heap p with
      | none => t3
      | some np =>
        if some x = np.right then writeNode t3 p { np with right := some y }
        else writeNode t3 p { np with left := some y }
  let t5 := writeNode t4 y { ny with parent := nx.parent, right := some x }
  writeNode t5 x { nx with left := ny.right, parent := some y }

/-- `leftRotate` computes `rotatedL` when the four touched addresses
are pairwise distinct and live. -/
lemma leftRotate_eq (t : RBTree) (x y : Nat) (nx ny : RBNode)
    (hx : t.heap x = some nx) (hr : nx.right = some y)
    (hy : t.heap y = some ny) (hxy : x ≠ y)
    (hb : ∀ b, ny.left = some b → ∃ nb, t.heap b = some nb ∧ b ≠ x ∧ b ≠ y)
    (hp : ∀ p, nx.parent = some p →
      ∃ np, t.heap p = some np ∧ p ≠ x ∧ p ≠ y ∧ ∀ b, ny.left = some b → p ≠ b) :
    leftRotate t (some x) = .ok (rotatedL t x y nx ny) := by
  have hyx : ¬ y = x := fun h => hxy h.symm
  rcases hl : ny.left with _ | b
  · rcases hpp : nx.parent with _ | p
    · simp [leftRotate, rotatedL, look, setR, setP, setL, writeNode,
        hx, hr, hy, hl, hpp, hyx, hxy, Except.bind, bind, pure, Except.pure]
    · obtain ⟨np, hnp, hpx, hpy, _⟩ := hp p hpp
      have hxp : ¬ x = p := fun h => hpx h.symm
      have hyp2 : ¬ y = p := fun h => hpy h.symm
      by_cases hplx : some x = np.left
      · simp [leftRotate, rotatedL, look, setR, setP, setL, writeNode,
          hx, hr, hy, hl, hpp, hnp, hplx, hyx, hxy, hpx, hpy, hxp, hyp2,
          Except.bind, bind, pure, Except.pure]
      · simp [leftRotate, rotatedL, look, setR, setP, setL, writeNode,
          hx, hr, hy, hl, hpp, hnp, hplx, hyx, hxy, hpx, hpy, hxp, hyp2,
          Except.bind, bind, pure, Except.pure]
  · obtain ⟨nb, hnb, hbx, hby⟩ := hb b hl
    have hxb : ¬ x = b := fun h => hbx h.symm
    have hyb : ¬ y = b := fun h => hby h.symm
    rcases hpp : nx.parent with _ | p
    · simp [leftRotate, rotatedL, look, setR, setP, setL, writeNode,
        hx, hr, hy, hl, hpp, hnb, hbx, hby, hxb, hyb, hyx, hxy,
        Except.bind, bind, pure, Except.pure]
    · obtain ⟨np, hnp, hpx, hpy, hpb'⟩ := hp p hpp
      have hpb : p ≠ b := hpb' b hl
      have hxp : ¬ x = p := fun h => hpx h.symm
      have hyp2 : ¬ y = p := fun h => hpy h.symm
      have hbp : ¬ b = p := fun h => hpb h.symm
      by_cases hplx : some x = np.left
      · simp [leftRotate, rotatedL, look, setR, setP, setL, writeNode,
          hx, hr, hy, hl, hpp, hnb, hnp, hplx, hbx, hby, hxb, hyb, hyx, hxy,
          hpx, hpy, hxp, hyp2, hpb, hbp, Except.bind, bind, pure, Except.pure]
      · simp [leftRotate, rotatedL, look, setR, setP, setL, writeNode,
          hx, hr, hy, hl, hpp, hnb, hnp, hplx, hbx, hby, hxb, hyb, hyx, hxy,
          hpx, hpy, hxp, hyp2, hpb, hbp, Except.bind, bind, pure, Except.pure]

/-- `rightRotate` computes `rotatedR` when the four touched addresses
are pairwise distinct and live. -/
lemma rightRotate_eq (t : RBTree) (x y : Nat) (nx ny : RBNode)
    (hx : t.heap x = some nx) (hr : nx.left = some y)
    (hy : t.heap y = some ny) (hxy : x ≠ y)
    (hb : ∀ b, ny.right = some b → ∃ nb, t.heap b = some nb ∧ b ≠ x ∧ b ≠ y)
    (hp : ∀ p, nx.parent = some p →
      ∃ np, t.heap p = some np ∧ p ≠ x ∧ p ≠ y ∧ ∀ b, ny.right = some b → p ≠ b) :
    rightRotate t (some x) = .ok (rotatedR t x y nx ny) := by
  have hyx : ¬ y = x := fun h => hxy h.symm
  rcases hl : ny.right with _ | b
  · rcases hpp : nx.parent with _ | p
    · simp [rightRotate, rotatedR, look, setR, setP, setL, writeNode,
        hx, hr, hy, hl, hpp, hyx, hxy, Except.bind, bind, pure, Except.pure]
    · obtain ⟨np, hnp, hpx, hpy, _⟩ := hp p hpp
      have hxp : ¬ x = p := fun h => hpx h.symm
      have hyp2 : ¬ y = p := fun h => hpy h.symm
      by_cases hplx : some x = np.right
      · simp [rightRotate, rotatedR, look, setR, setP, setL, writeNode,
          hx, hr, hy, hl, hpp, hnp, hplx, hyx, hxy, hpx, hpy, hxp, hyp2,
          Except.bind, bind, pure, Except.pure]
      · simp [rightRotate, rotatedR, look, setR, setP, setL, writeNode,
          hx, hr, hy, hl, hpp, hnp, hplx, hyx, hxy, hpx, hpy, hxp, hyp2,
          Except.bind, bind, pure, Except.pure]
  · obtain ⟨nb, hnb, hbx, hby⟩ := hb b hl
    have hxb : ¬ x = b := fun h => hbx h.symm
    have hyb : ¬ y = b := fun h => hby h.symm
    rcases hpp : nx.parent with _ | p
    · simp [rightRotate, rotatedR, look, setR, setP, setL, writeNode,
        hx, hr, hy, hl, hpp, hnb, hbx, hby, hxb, hyb, hyx, hxy,
        Except.bind, bind, pure, Except.pure]
    · obtain ⟨np, hnp, hpx, hpy, hpb'⟩ := hp p hpp
      have hpb : p ≠ b := hpb' b hl
      have hxp : ¬ x = p := fun h => hpx h.symm
      have hyp2 : ¬ y = p := fun h => hpy h.symm
      have hbp : ¬ b = p := fun h => hpb h.symm
      by_cases hplx : some x = np.right
      · simp [rightRotate, rotatedR, look, setR, setP, setL, writeNode,
          hx, hr, hy, hl, hpp, hnb, hnp, hplx, hbx, hby, hxb, hyb, hyx, hxy,
          hpx, hpy, hxp, hyp2, hpb, hbp, Except.bind, bind, pure, Except.pure]
      · simp [rightRotate, rotatedR, look, setR, setP, setL, writeNode,
          hx, hr, hy, hl, hpp, hnb, hnp, hplx, hbx, hby, hxb, hyb, hyx, hxy,
          hpx, hpy, hxp, hyp2, hpb, hbp, Except.bind, bind, pure, Except.pure]

/-- Pointwise description of the heap and root of `rotatedL`. -/
lemma rotatedL_fields (t : RBTree) (x y : Nat) (nx ny : RBNode)
    (hxy : x ≠ y)
    (hb : ∀ b, ny.left = some b → ∃ nb, t.heap b = some nb ∧ b ≠ x ∧ b ≠ y)
    (hp : ∀ p, nx.parent = some p →
      ∃ np, t.heap p = some np ∧ p ≠ x ∧ p ≠ y ∧ ∀ b, ny.left = some b → p ≠ b) :
    (rotatedL t x y nx ny).heap x = some { nx with right := ny.left, parent := some y } ∧
    (rotatedL t x y nx ny).heap y = some { ny with parent := nx.parent, left := some x } ∧
    (∀ b nb, ny.left = some b → t.heap b = some nb →
      (rotatedL t x y nx ny).heap b = some { nb with parent := some x }) ∧
    (∀ p np, nx.parent = some p → t.heap p = some np →
      (rotatedL t x y nx ny).heap p =
        some (if some x = np.left then { np with left := some y }
              else { np with right := some y })) ∧
    (∀ j, j ≠ x → j ≠ y → (∀ b, ny.left = some b → j ≠ b) →
      (∀ p, nx.parent = some p → j ≠ p) →
      (rotatedL t x y nx ny).heap j = t.heap j) ∧
    (rotatedL t x y nx ny).root = (if nx.parent = none then some y else t.root) := by
  have hyx : ¬ y = x := fun h => hxy h.symm
  refine ⟨?_, ?_, ?_, ?_, ?_, ?_⟩
  · simp [rotatedL, writeNode]
  · simp only [rotatedL, writeNode]
    simp [hyx]
  · intro b nb hlb hnb
    obtain ⟨nb', hnb', hbx, hby⟩ := hb b hlb
    have hbx' : ¬ b = x := hbx
    have hby' : ¬ b = y := hby
    rcases hpp : nx.parent with _ | p
    · simp [rotatedL, writeNode, hlb, hnb, hpp, hbx', hby']
    · obtain ⟨np, hnp, hpx, hpy, hpb'⟩ := hp p hpp
      have hbp : ¬ b = p := fun h => (hpb' b hlb) h.symm
      by_cases hplx : some x = np.left
      · simp [rotatedL, writeNode, hlb, hnb, hpp, hnp, hplx, hbx', hby', hbp]
      · simp [rotatedL, writeNode, hlb, hnb, hpp, hnp, hplx, hbx', hby', hbp]
  · intro p np hpp hnp
    obtain ⟨np', hnp', hpx, hpy, hpb'⟩ := hp p hpp
    have hpx' : ¬ p = x := hpx
    have hpy' : ¬ p = y := hpy
    rcases hlb : ny.left with _ | b
    · by_cases hplx : some x = np.left
      · simp [rotatedL, writeNode, hlb, hpp, hnp, hplx, hpx', hpy']
      · simp [rotatedL, writeNode, hlb, hpp, hnp, hplx, hpx', hpy']
    · obtain ⟨nb, hnb, hbx, hby⟩ := hb b hlb
      have hpb : ¬ p = b := hpb' b hlb
      by_cases hplx : some x = np.left
      · simp [rotatedL, writeNode, hlb, hnb, hpp, hnp, hplx, hpx', hpy', hpb]
      · simp [rotatedL, writeNode, hlb, hnb, hpp, hnp, hplx, hpx', hpy', hpb]
  · intro j hjx hjy hjb hjp
    have hjx' : ¬ j = x := hjx
    have hjy' : ¬ j = y := hjy
    rcases hlb : ny.left with _ | b
    · rcases hpp : nx.parent with _ | p
      · simp [rotatedL, writeNode, hlb, hpp, hjx', hjy']
      · obtain ⟨np, hnp, _, _, _⟩ := hp p hpp
        have hjp' : ¬ j = p := hjp p hpp
        by_cases hplx : some x = np.left
        · simp [rotatedL, writeNode, hlb, hpp, hnp, hplx, hjx', hjy', hjp']
        · simp [rotatedL, writeNode, hlb, hpp, hnp, hplx, hjx', hjy', hjp']
    · obtain ⟨nb, hnb, _, _⟩ := hb b hlb
      have hjb' : ¬ j = b := hjb b hlb
      rcases hpp : nx.parent with _ | p
      · simp [rotatedL, writeNode, hlb, hnb, hpp, hjx', hjy', hjb']
      · obtain ⟨np, hnp, _, _, _⟩ := hp p hpp
        have hjp' : ¬ j = p := hjp p hpp
        by_cases hplx : some x = np.left
        · simp [rotatedL, writeNode, hlb, hnb, hpp, hnp, hplx, hjx', hjy', hjb', hjp']
        · simp [rotatedL, writeNode, hlb, hnb, hpp, hnp, hplx, hjx', hjy', hjb', hjp']
  · rcases hlb : ny.left with _ | b
    · rcases hpp : nx.parent with _ | p
      · simp [rotatedL, writeNode, hlb, hpp]
      · obtain ⟨np, hnp, _, _, _⟩ := hp p hpp
        by_cases hplx : some x = np.left
        · simp [rotatedL, writeNode, hlb, hpp, hnp, hplx]
        · simp [rotatedL, writeNode, hlb, hpp, hnp, hplx]
    · obtain ⟨nb, hnb, _, _⟩ := hb b hlb
      rcases hpp : nx.parent with _ | p
      · simp [rotatedL, writeNode, hlb, hnb, hpp]
      · obtain ⟨np, hnp, _, _, _⟩ := hp p hpp
        by_cases hplx : some x = np.left
        · simp [rotatedL, writeNode, hlb, hnb, hpp, hnp, hplx]
        · simp [rotatedL, writeNode, hlb, hnb, hpp, hnp, hplx]

/-- Pointwise description of the heap and root of `rotatedR`. -/
lemma rotatedR_fields (t : RBTree) (x y : Nat) (nx ny : RBNode)
    (hxy : x ≠ y)
    (hb : ∀ b, ny.right = some b → ∃ nb, t.heap b = some nb ∧ b ≠ x ∧ b ≠ y)
    (hp : ∀ p, nx.parent = some p →
      ∃ np, t.heap p = some np ∧ p ≠ x ∧ p ≠ y ∧ ∀ b, ny.right = some b → p ≠ b) :
    (rotatedR t x y nx ny).heap x = some { nx with left := ny.right, parent := some y } ∧
    (rotatedR t x y nx ny).heap y = some { ny with parent := nx.parent, right := some x } ∧
    (∀ b nb, ny.right = some b → t.heap b = some nb →
      (rotatedR t x y nx ny).heap b = some { nb with parent := some x }) ∧
    (∀ p np, nx.parent = some p → t.heap p = some np →
      (rotatedR t x y nx ny).heap p =
        some (if some x = np.right then { np with right := some y }
              else { np with left := some y })) ∧
    (∀ j, j ≠ x → j ≠ y → (∀ b, ny.right = some b → j ≠ b) →
      (∀ p, nx.parent = some p → j ≠ p) →
      (rotatedR t x y nx ny).heap j = t.heap j) ∧
    (rotatedR t x y nx ny).root = (if nx.parent = none then some y else t.root) := by
  have hyx : ¬ y = x := fun h => hxy h.symm
  refine ⟨?_, ?_, ?_, ?_, ?_, ?_⟩
  · simp [rotatedR, writeNode]
  · simp only [rotatedR, writeNode]
    simp [hyx]
  · intro b nb hlb hnb
    obtain ⟨nb', hnb', hbx, hby⟩ := hb b hlb
    have hbx' : ¬ b = x := hbx
    have hby' : ¬ b = y := hby
    rcases hpp : nx.parent with _ | p
    · simp [rotatedR, writeNode, hlb, hnb, hpp, hbx', hby']
    · obtain ⟨np, hnp, hpx, hpy, hpb'⟩ := hp p hpp
      have hbp : ¬ b = p := fun h => (hpb' b hlb) h.symm
      by_cases hplx : some x = np.right
      · simp [rotatedR, writeNode, hlb, hnb, hpp, hnp, hplx, hbx', hby', hbp]
      · simp [rotatedR, writeNode, hlb, hnb, hpp, hnp, hplx, hbx', hby', hbp]
  · intro p np hpp hnp
    obtain ⟨np', hnp', hpx, hpy, hpb'⟩ := hp p hpp
    have hpx' : ¬ p = x := hpx
    have hpy' : ¬ p = y := hpy
    rcases hlb : ny.right with _ | b
    · by_cases hplx : some x = np.right
      · simp [rotatedR, writeNode, hlb, hpp, hnp, hplx, hpx', hpy']
      · simp [rotatedR, writeNode, hlb, hpp, hnp, hplx, hpx', hpy']
    · obtain ⟨nb, hnb, hbx, hby⟩ := hb b hlb
      have hpb : ¬ p = b := hpb' b hlb
      by_cases hplx : some x = np.right
      · simp [rotatedR, writeNode, hlb, hnb, hpp, hnp, hplx, hpx', hpy', hpb]
      · simp [rotatedR, writeNode, hlb, hnb, hpp, hnp, hplx, hpx', hpy', hpb]
  · intro j hjx hjy hjb hjp
    have hjx' : ¬ j = x := hjx
    have hjy' : ¬ j = y := hjy
    rcases hlb : ny.right with _ | b
    · rcases hpp : nx.parent with _ | p
      · simp [rotatedR, writeNode, hlb, hpp, hjx', hjy']
      · obtain ⟨np, hnp, _, _, _⟩ := hp p hpp
        have hjp' : ¬ j = p := hjp p hpp
        by_cases hplx : some x = np.right
        · simp [rotatedR, writeNode, hlb, hpp, hnp, hplx, hjx', hjy', hjp']
        · simp [rotatedR, writeNode, hlb, hpp, hnp, hplx, hjx', hjy', hjp']
    · obtain ⟨nb, hnb, _, _⟩ := hb b hlb
      have hjb' : ¬ j = b := hjb b hlb
      rcases hpp : nx.parent with _ | p
      · simp [rotatedR, writeNode, hlb, hnb, hpp, hjx', hjy', hjb']
      · obtain ⟨np, hnp, _, _, _⟩ := hp p hpp
        have hjp' : ¬ j = p := hjp p hpp
        by_cases hplx : some x = np.right
        · simp [rotatedR, writeNode, hlb, hnb, hpp, hnp, hplx, hjx', hjy', hjb', hjp']
        · simp [rotatedR, writeNode, hlb, hnb, hpp, hnp, hplx, hjx', hjy', hjb', hjp']
  · rcases hlb : ny.right with _ | b
    · rcases hpp : nx.parent with _ | p
      · simp [rotatedR, writeNode, hlb, hpp]
      · obtain ⟨np, hnp, _, _, _⟩ := hp p hpp
        by_cases hplx : some x = np.right
        · simp [rotatedR, writeNode, hlb, hpp, hnp, hplx]
        · simp [rotatedR, writeNode, hlb, hpp, hnp, hplx]
    · obtain ⟨nb, hnb, _, _⟩ := hb b hlb
      rcases hpp : nx.parent with _ | p
      · simp [rotatedR, writeNode, hlb, hnb, hpp]
      · obtain ⟨np, hnp, _, _, _⟩ := hp p hpp
        by_cases hplx : some x = np.right
        · simp [rotatedR, writeNode, hlb, hnb, hpp, hnp, hplx]
        · simp [rotatedR, writeNode, hlb, hnb, hpp, hnp, hplx]

/-- A successful rendering of a non-null pointer yields a live head
address listed in the result. -/
lemma seq_head_alloc {t : RBTree} {f : Nat} {i : Nat} {l : List (Nat × Int)}
    (h : seq t f (some i) = .ok l) :
    ∃ n, t.heap i = some n ∧ i ∈ l.map Prod.fst := by
  cases f with
  | zero => simp [seq] at h
  | succ f =>
    rw [seq_some] at h
    cases hn : t.heap i with
    | none => simp [hn] at h
    | some n =>
      simp only [hn] at h
      cases h1 : seq t f n.left with
      | error e => simp [h1] at h
      | ok L =>
        simp only [h1] at h
        cases h2 : seq t f n.right with
        | error e => simp [h2] at h
        | ok R =>
          simp only [h2] at h
          have hl : L ++ (i, n.data) :: R = l := by simpa using h
          exact ⟨n, rfl, by rw [← hl]; simp⟩

/-- The left-rotation half of the rotation claim: at any node `x` with
right child `y`, in any heap rendering a duplicate-free subtree at `x`
whose parent (if any) is live and outside that subtree, the rotation
succeeds, changes no color, preserves the in-order sequence (now rooted
at `y`), re-parents the left subtree of `y` onto `x`, redirects the
former parent to `y`, and promotes `y` to root when `x` had no
parent. -/
lemma leftRotate_main (t : RBTree) (x y : Nat) (nx ny : RBNode)
    (F : Nat) (l : List (Nat × Int))
    (hx : t.heap x = some nx) (hr : nx.right = some y)
    (hy : t.heap y = some ny)
    (hseq : seq t F (some x) = .ok l)
    (hnodup : (l.map Prod.fst).Nodup)
    (hpar : ∀ p, nx.parent = some p →
      p ∉ l.map Prod.fst ∧ ∃ np, t.heap p = some np) :
    ∃ t', leftRotate t (some x) = .ok t' ∧
      (∀ i, (t'.heap i).map RBNode.color = (t.heap i).map RBNode.color) ∧
      seq t' (F+1) (some y) = .ok l ∧
      t'.heap x = some { nx with right := ny.left, parent := some y } ∧
      t'.heap y = some { ny with parent := nx.parent, left := some x } ∧
      (∀ b nb, ny.left = some b → t.heap b = some nb →
        t'.heap b = some { nb with parent := some x }) ∧
      (∀ p np, nx.parent = some p → t.heap p = some np →
        t'.heap p = some (if some x = np.left then { np with left := some y }
                          else { np with right := some y })) ∧
      t'.root = (if nx.parent = none then some y else t.root) := by
  -- decompose the rendering of the subtree at x
  cases F with
  | zero => simp [seq] at hseq
  | succ F1 =>
  rw [seq_some] at hseq
  simp only [hx, hr] at hseq
  cases hLa : seq t F1 nx.left with
  | error e => simp [hLa] at hseq
  | ok La =>
  simp only [hLa] at hseq
  cases hRy : seq t F1 (some y) with
  | error e => simp [hRy] at hseq
  | ok Ry =>
  simp only [hRy] at hseq
  have hl0 : La ++ (x, nx.data) :: Ry = l := by simpa using hseq
  -- decompose the rendering of the subtree at y
  cases F1 with
  | zero => simp [seq] at hRy
  | succ F2 =>
  rw [seq_some] at hRy
  simp only [hy] at hRy
  cases hLb : seq t F2 ny.left with
  | error e => simp [hLb] at hRy
  | ok Lb =>
  simp only [hLb] at hRy
  cases hLc : seq t F2 ny.right with
  | error e => simp [hLc] at hRy
  | ok Lc =>
  simp only [hLc] at hRy
  have hRy0 : Lb ++ (y, ny.data) :: Lc = Ry := by simpa using hRy
  have hl : La ++ (x, nx.data) :: (Lb ++ (y, ny.data) :: Lc) = l := by
    rw [hRy0]; exact hl0
  have hlm : l.map Prod.fst =
      La.map Prod.fst ++ x :: (Lb.map Prod.fst ++ y :: Lc.map Prod.fst) := by
    rw [← hl]; simp
  -- duplicate-freeness facts
  have hshape := nodup_shape (by rw [← hlm]; exact hnodup)
  obtain ⟨hxA, hxB, hxC, hyA, hyB, hyC, hxy, hdAB, hdAC, hdBC⟩ := hshape
  have hxin : x ∈ l.map Prod.fst := by rw [hlm]; simp
  have hyin : y ∈ l.map Prod.fst := by rw [hlm]; simp
  have hBin : ∀ q, q ∈ Lb.map Prod.fst → q ∈ l.map Prod.fst := by
    intro q hq; rw [hlm]; simp only [List.mem_append, List.mem_cons]
    exact Or.inr (Or.inr (Or.inl hq))
  -- liveness and separation of the left child of y and of the parent of x
  have hbmem : ∀ b, ny.left = some b →
      ∃ nb, t.heap b = some nb ∧ b ∈ Lb.map Prod.fst := by
    intro b hlb
    obtain ⟨nb, hnb, hbin⟩ := seq_head_alloc (hlb ▸ hLb)
    exact ⟨nb, hnb, hbin⟩
  have hbfact : ∀ b, ny.left = some b →
      ∃ nb, t.heap b = some nb ∧ b ≠ x ∧ b ≠ y := by
    intro b hlb
    obtain ⟨nb, hnb, hbin⟩ := hbmem b hlb
    exact ⟨nb, hnb, fun h => hxB (h ▸ hbin), fun h => hyB (h ▸ hbin)⟩
  have hpfact : ∀ p, nx.parent = some p →
      ∃ np, t.heap p = some np ∧ p ≠ x ∧ p ≠ y ∧
        ∀ b, ny.left = some b → p ≠ b := by
    intro p hpp
    obtain ⟨hpout, np, hnp⟩ := hpar p hpp
    refine ⟨np, hnp, fun h => hpout (h ▸ hxin), fun h => hpout (h ▸ hyin),
      fun b hlb h => ?_⟩
    obtain ⟨nb, hnb, hbin⟩ := hbmem b hlb
    exact hpout (h ▸ hBin b hbin)
  -- the rotation and its pointwise description
  have hrot := leftRotate_eq t x y nx ny hx hr hy hxy hbfact hpfact
  obtain ⟨fx, fy, fb, fp, fe, froot⟩ :=
    rotatedL_fields t x y nx ny hxy hbfact hpfact
  refine ⟨rotatedL t x y nx ny, hrot, ?_, ?_, fx, fy,
    fun b nb hlb hnb => fb b nb hlb hnb, fun p np hpp hnp => fp p np hpp hnp,
    froot⟩
  -- colors unchanged
  · intro i
    by_cases hix : i = x
    · subst hix; rw [fx, hx]; rfl
    by_cases hiy : i = y
    · subst hiy; rw [fy, hy]; rfl
    by_cases hib : ∃ b, ny.left = some b ∧ i = b
    · obtain ⟨b, hlb, rfl⟩ := hib
      obtain ⟨nb, hnb, _, _⟩ := hbfact i hlb
      rw [fb i nb hlb hnb, hnb]; rfl
    by_cases hip : ∃ p, nx.parent = some p ∧ i = p
    · obtain ⟨p, hpp, rfl⟩ := hip
      obtain ⟨np, hnp, _, _, _⟩ := hpfact i hpp
      rw [fp i np hpp hnp, hnp]
      by_cases hxl : some x = np.left <;> simp [hxl]
    · have h1 : ∀ b, ny.left = some b → i ≠ b := fun b hlb h => hib ⟨b, hlb, h⟩
      have h2 : ∀ p, nx.parent = some p → i ≠ p := fun p hpp h => hip ⟨p, hpp, h⟩
      rw [fe i hix hiy h1 h2]
  -- in-order sequence preserved
  · have hsame : ∀ q, q ≠ x → q ≠ y → (∀ p, nx.parent = some p → q ≠ p) →
        sameKids t (rotatedL t x y nx ny) q := by
      intro q hqx hqy hqp
      by_cases hqb : ∃ b, ny.left = some b ∧ q = b
      · obtain ⟨b, hlb, rfl⟩ := hqb
        obtain ⟨nb, hnb, _, _⟩ := hbfact q hlb
        unfold sameKids
        rw [fb q nb hlb hnb, hnb]
        rfl
      · have h1 : ∀ b, ny.left = some b → q ≠ b := fun b hlb h => hqb ⟨b, hlb, h⟩
        unfold sameKids
        rw [fe q hqx hqy h1 hqp]
    have hqA : ∀ q, q ∈ La.map Prod.fst →
        sameKids t (rotatedL t x y nx ny) q := by
      intro q hq
      have hqids : q ∈ l.map Prod.fst := by
        rw [hlm]; simp only [List.mem_append, List.mem_cons]; exact Or.inl hq
      exact hsame q (fun h => hxA (h ▸ hq)) (fun h => hyA (h ▸ hq))
        (fun p hpp h => (hpar p hpp).1 (h ▸ hqids))
    have hqB : ∀ q, q ∈ Lb.map Prod.fst →
        sameKids t (rotatedL t x y nx ny) q := by
      intro q hq
      exact hsame q (fun h => hxB (h ▸ hq)) (fun h => hyB (h ▸ hq))
        (fun p hpp h => (hpar p hpp).1 (h ▸ hBin q hq))
    have hqC : ∀ q, q ∈ Lc.map Prod.fst →
        sameKids t (rotatedL t x y nx ny) q := by
      intro q hq
      have hqids : q ∈ l.map Prod.fst := by
        rw [hlm]; simp only [List.mem_append, List.mem_cons]
        exact Or.inr (Or.inr (Or.inr (Or.inr hq)))
      exact hsame q (fun h => hxC (h ▸ hq)) (fun h => hyC (h ▸ hq))
        (fun p hpp h => (hpar p hpp).1 (h ▸ hqids))
    have hLa' : seq (rotatedL t x y nx ny) (F2+1) nx.left = .ok La :=
      seq_frame hLa (fun q hq => hqA q hq)
    have hLb' : seq (rotatedL t x y nx ny) (F2+1) ny.left = .ok Lb :=
      seq_frame (seq_mono hLb) (fun q hq => hqB q hq)
    have hLc' : seq (rotatedL t x y nx ny) (F2+2) ny.right = .ok Lc :=
      seq_mono (seq_mono (seq_frame hLc (fun q hq => hqC q hq)))
    have hseqx : seq (rotatedL t x y nx ny) (F2+2) (some x) =
        .ok (La ++ (x, nx.data) :: Lb) := by
      rw [seq_some]
      simp only [fx]
      simp only [hLa', hLb']
    rw [seq_some]
    simp only [fy]
    simp only [hseqx, hLc']
    have hfin : (La ++ (x, nx.data) :: Lb) ++ (y, ny.data) :: Lc = l := by
      rw [← hl]; simp
    simp only [hfin]

/-- The right-rotation half of the rotation claim, mirror image of
`leftRotate_main`. -/
lemma rightRotate_main (t : RBTree) (x y : Nat) (nx ny : RBNode)
    (F : Nat) (l : List (Nat × Int))
    (hx : t.heap x = some nx) (hr : nx.left = some y)
    (hy : t.heap y = some ny)
    (hseq : seq t F (some x) = .ok l)
    (hnodup : (l.map Prod.fst).Nodup)
    (hpar : ∀ p, nx.parent = some p →
      p ∉ l.map Prod.fst ∧ ∃ np, t.heap p = some np) :
    ∃ t', rightRotate t (some x) = .ok t' ∧
      (∀ i, (t'.heap i).map RBNode.color = (t.heap i).map RBNode.color) ∧
      seq t' (F+1) (some y) = .ok l ∧
      t'.heap x = some { nx with left := ny.right, parent := some y } ∧
      t'.heap y = some { ny with parent := nx.parent, right := some x } ∧
      (∀ b nb, ny.right = some b → t.heap b = some nb →
        t'.heap b = some { nb with parent := some x }) ∧
      (∀ p np, nx.parent = some p → t.heap p = some np →
        t'.heap p = some (if some x = np.right then { np with right := some y }
                          else { np with left := some y })) ∧
      t'.root = (if nx.parent = none then some y else t.root) := by
  -- decompose the rendering of the subtree at x
  cases F with
  | zero => simp [seq] at hseq
  | succ F1 =>
  rw [seq_some] at hseq
  simp only [hx, hr] at hseq
  cases hRy : seq t F1 (some y) with
  | error e => simp [hRy] at hseq
  | ok Ry =>
  simp only [hRy] at hseq
  cases hLc : seq t F1 nx.right with
  | error e => simp [hLc] at hseq
  | ok Lc =>
  simp only [hLc] at hseq
  have hl0 : Ry ++ (x, nx.data) :: Lc = l := by simpa using hseq
  -- decompose the rendering of the subtree at y
  cases F1 with
  | zero => simp [seq] at hRy
  | succ F2 =>
  rw [seq_some] at hRy
  simp only [hy] at hRy
  cases hLa : seq t F2 ny.left with
  | error e => simp [hLa] at hRy
  | ok La =>
  simp only [hLa] at hRy
  cases hLb : seq t F2 ny.right with
  | error e => simp [hLb] at hRy
  | ok Lb =>
  simp only [hLb] at hRy
  have hRy0 : La ++ (y, ny.data) :: Lb = Ry := by simpa using hRy
  have hl : (La ++ (y, ny.data) :: Lb) ++ (x, nx.data) :: Lc = l := by
    rw [hRy0]; exact hl0
  have hlm : l.map Prod.fst =
      La.map Prod.fst ++ y :: (Lb.map Prod.fst ++ x :: Lc.map Prod.fst) := by
    rw [← hl]; simp
  -- duplicate-freeness facts (nodup_shape applied with the roles of the
  -- removed node and the pivot swapped)
  have hshape := nodup_shape (by rw [← hlm]; exact hnodup)
  obtain ⟨hyA, hyB, hyC, hxA, hxB, hxC, hyx, hdAB, hdAC, hdBC⟩ := hshape
  have hxy : x ≠ y := fun h => hyx h.symm
  have hxin : x ∈ l.map Prod.fst := by rw [hlm]; simp
  have hyin : y ∈ l.map Prod.fst := by rw [hlm]; simp
  have hBin : ∀ q, q ∈ Lb.map Prod.fst → q ∈ l.map Prod.fst := by
    intro q hq; rw [hlm]; simp only [List.mem_append, List.mem_cons]
    exact Or.inr (Or.inr (Or.inl hq))
  -- liveness and separation of the right child of y and of the parent of x
  have hbmem : ∀ b, ny.right = some b →
      ∃ nb, t.heap b = some nb ∧ b ∈ Lb.map Prod.fst := by
    intro b hlb
    obtain ⟨nb, hnb, hbin⟩ := seq_head_alloc (hlb ▸ hLb)
    exact ⟨nb, hnb, hbin⟩
  have hbfact : ∀ b, ny.right = some b →
      ∃ nb, t.heap b = some nb ∧ b ≠ x ∧ b ≠ y := by
    intro b hlb
    obtain ⟨nb, hnb, hbin⟩ := hbmem b hlb
    exact ⟨nb, hnb, fun h => hxB (h ▸ hbin), fun h => hyB (h ▸ hbin)⟩
  have hpfact : ∀ p, nx.parent = some p →
      ∃ np, t.heap p = some np ∧ p ≠ x ∧ p ≠ y ∧
        ∀ b, ny.right = some b → p ≠ b := by
    intro p hpp
    obtain ⟨hpout, np, hnp⟩ := hpar p hpp
    refine ⟨np, hnp, fun h => hpout (h ▸ hxin), fun h => hpout (h ▸ hyin),
      fun b hlb h => ?_⟩
    obtain ⟨nb, hnb, hbin⟩ := hbmem b hlb
    exact hpout (h ▸ hBin b hbin)
  -- the rotation and its pointwise description
  have hrot := rightRotate_eq t x y nx ny hx hr hy hxy hbfact hpfact
  obtain ⟨fx, fy, fb, fp, fe, froot⟩ :=
    rotatedR_fields t x y nx ny hxy hbfact hpfact
  refine ⟨rotatedR t x y nx ny, hrot, ?_, ?_, fx, fy,
    fun b nb hlb hnb => fb b nb hlb hnb, fun p np hpp hnp => fp p np hpp hnp,
    froot⟩
  -- colors unchanged
  · intro i
    by_cases hix : i = x
    · subst hix; rw [fx, hx]; rfl
    by_cases hiy : i = y
    · subst hiy; rw [fy, hy]; rfl
    by_cases hib : ∃ b, ny.right = some b ∧ i = b
    · obtain ⟨b, hlb, rfl⟩ := hib
      obtain ⟨nb, hnb, _, _⟩ := hbfact i hlb
      rw [fb i nb hlb hnb, hnb]; rfl
    by_cases hip : ∃ p, nx.parent = some p ∧ i = p
    · obtain ⟨p, hpp, rfl⟩ := hip
      obtain ⟨np, hnp, _, _, _⟩ := hpfact i hpp
      rw [fp i np hpp hnp, hnp]
      by_cases hxl : some x = np.right <;> simp [hxl]
    · have h1 : ∀ b, ny.right = some b → i ≠ b := fun b hlb h => hib ⟨b, hlb, h⟩
      have h2 : ∀ p, nx.parent = some p → i ≠ p := fun p hpp h => hip ⟨p, hpp, h⟩
      rw [fe i hix hiy h1 h2]
  -- in-order sequence preserved
  · have hsame : ∀ q, q ≠ x → q ≠ y → (∀ p, nx.parent = some p → q ≠ p) →
        sameKids t (rotatedR t x y nx ny) q := by
      intro q hqx hqy hqp
      by_cases hqb : ∃ b, ny.right = some b ∧ q = b
      · obtain ⟨b, hlb, rfl⟩ := hqb
        obtain ⟨nb, hnb, _, _⟩ := hbfact q hlb
        unfold sameKids
        rw [fb q nb hlb hnb, hnb]
        rfl
      · have h1 : ∀ b, ny.right = some b → q ≠ b := fun b hlb h => hqb ⟨b, hlb, h⟩
        unfold sameKids
        rw [fe q hqx hqy h1 hqp]
    have hqA : ∀ q, q ∈ La.map Prod.fst →
        sameKids t (rotatedR t x y nx ny) q := by
      intro q hq
      have hqids : q ∈ l.map Prod.fst := by
        rw [hlm]; simp only [List.mem_append, List.mem_cons]; exact Or.inl hq
      exact hsame q (fun h => hxA (h ▸ hq)) (fun h => hyA (h ▸ hq))
        (fun p hpp h => (hpar p hpp).1 (h ▸ hqids))
    have hqB : ∀ q, q ∈ Lb.map Prod.fst →
        sameKids t (rotatedR t x y nx ny) q := by
      intro q hq
      exact hsame q (fun h => hxB (h ▸ hq)) (fun h => hyB (h ▸ hq))
        (fun p hpp h => (hpar p hpp).1 (h ▸ hBin q hq))
    have hqC : ∀ q, q ∈ Lc.map Prod.fst →
        sameKids t (rotatedR t x y nx ny) q := by
      intro q hq
      have hqids : q ∈ l.map Prod.fst := by
        rw [hlm]; simp only [List.mem_append, List.mem_cons]
        exact Or.inr (Or.inr (Or.inr (Or.inr hq)))
      exact hsame q (fun h => hxC (h ▸ hq)) (fun h => hyC (h ▸ hq))
        (fun p hpp h => (hpar p hpp).1 (h ▸ hqids))
    have hLa' : seq (rotatedR t x y nx ny) (F2+2) ny.left = .ok La :=
      seq_mono (seq_mono (seq_frame hLa (fun q hq => hqA q hq)))
    have hLb' : seq (rotatedR t x y nx ny) (F2+1) ny.right = .ok Lb :=
      seq_frame (seq_mono hLb) (fun q hq => hqB q hq)
    have hLc' : seq (rotatedR t x y nx ny) (F2+1) nx.right = .ok Lc :=
      seq_frame hLc (fun q hq => hqC q hq)
    have hseqx : seq (rotatedR t x y nx ny) (F2+2) (some x) =
        .ok (Lb ++ (x, nx.data) :: Lc) := by
      rw [seq_some]
      simp only [fx]
      simp only [hLb', hLc']
    rw [seq_some]
    simp only [fy]
    simp only [hLa', hseqx]
    have hfin : La ++ (y, ny.data) :: (Lb ++ (x, nx.data) :: Lc) = l := by
      rw [← hl]; simp
    simp only [hfin]

/-! ### The claims -/

/-- C1: the claim that after every sequence of insert/remove operations
each operation returns with the red-black invariants intact fails on
the code.  After insert 2, 1, 4, 3, 5 (nodes allocated at addresses
0..4) the two-child removal of the node holding 2 executes
`successor->right->parent = node->right;`, making node 2 (value 4) its
own parent; the subsequent removal of that node therefore unlinks
through the bogus parent pointer and returns normally while the root
(address 3) keeps address 2 — now freed — as its right child.  The
resulting structure has no well-defined black counts: the invariant
checker faults on the dangling child instead of validating the tree. -/
theorem C1_invariants_broken_after_remove :
    peek (runOps emptyTree [.insOp 2, .insOp 1, .insOp 4, .insOp 3, .insOp 5,
        .remNodeOp 0, .remNodeOp 2])
      (fun t => (t.root, (t.heap 3).map RBNode.right, t.heap 2)) =
      .ok (some 3, some (some 2), none)
  ∧ peekE (runOps emptyTree [.insOp 2, .insOp 1, .insOp 4, .insOp 3, .insOp 5,
        .remNodeOp 0, .remNodeOp 2])
      (fun t => isRB t F0) = .error .deref := by decide

/-- C2: the claim that `search(v)` returns a node equivalent to `v`
whenever one is stored fails on the code.  With 10, 20, 30 inserted the
value 10 is stored (the in-order sequence is [10, 20, 30]) yet
`search(10)` returns nil, and so does `search(30)`: the root is
compared with `operator==` rather than the comparator, and the
malformed loop condition of RBT.hpp line 438 never stops at a matching
non-root node — on a match the descent walks into the right subtree
and runs off the tree. -/
theorem C2_search_misses_stored_value :
    peekE (runOps emptyTree [.insOp 10, .insOp 20, .insOp 30])
      (fun t => vals t F0) = .ok [10, 20, 30]
  ∧ peekE (runOps emptyTree [.insOp 10, .insOp 20, .insOp 30])
      (fun t => search t 10 F0) = .ok none
  ∧ peekE (runOps emptyTree [.insOp 10, .insOp 20, .insOp 30])
      (fun t => search t 30 F0) = .ok none := by decide

/-- C3: the claim that in the two-child case the successor is re-linked
into the removed position carrying the removed nodes former left
child, right child and color fails on the code for the back-link of the
right child.  After insert 2, 1, 4, 3, 5 and removal of the root
(value 2, address 0), the successor (value 3, address 3) does receive
left child 1, right child at address 2 and the color black, but
`successor->right->parent = node->right;` leaves the carried right
child (value 4, address 2) with itself as parent instead of the
successor — it is not linked below the successor. -/
theorem C3_successor_relink_self_parent :
    peek (runOps emptyTree [.insOp 2, .insOp 1, .insOp 4, .insOp 3, .insOp 5,
        .remNodeOp 0])
      (fun t => (t.root, t.heap 3, t.heap 2)) =
      .ok (some 3,
        some { parent := none, right := some 2, left := some 1,
               data := 3, color := .BLACK },
        some { parent := some 2, right := some 4, left := none,
               data := 4, color := .BLACK }) := by decide

/-- C4: the claim that deletion fix-up operates correctly when the
structural replacement is nil fails on the code.  After insert
10, 20, 30, 40 the node holding 10 (address 0) is a black leaf; its
removal records black, replaces it with nil and calls
`fixDeleteViolations(nullptr)`, whose loop condition evaluates
`x->color` on the null pointer — the run faults instead of
returning. -/
theorem C4_fixdelete_null_dereference :
    peek (runOps emptyTree [.insOp 10, .insOp 20, .insOp 30, .insOp 40])
      (fun t => t.heap 0) =
      .ok (some { parent := some 1, right := none, left := none,
                  data := 10, color := .BLACK })
  ∧ ran (runOps emptyTree [.insOp 10, .insOp 20, .insOp 30, .insOp 40,
        .remNodeOp 0]) = .error .deref := by decide

/-- C5 counterexample: inserting 5 twice stores two nodes with value 5
— two values of the same equivalence class coexist, and the in-order
sequence [5, 5] is not strictly increasing — refuting the claim that an
equivalent insertion is a no-op or rejected. -/
theorem C5_duplicates_coexist :
    peekE (runOps emptyTree [.insOp 5, .insOp 5]) (fun t => vals t F0) =
      .ok [5, 5]
  ∧ peekE (runOps emptyTree [.insOp 5, .insOp 5]) (fun t => size t F0) = .ok 2
  ∧ ¬ (5:Int) < 5
  ∧ strictIncr [5, 5] = false := by decide

/-- C5 as amended: inserting a value equivalent to one already stored
is neither a no-op nor rejected — the source performs a plain BST
insert, creating a second node, so for every value `v` the tree built
by inserting `v` twice holds two nodes and its in-order value sequence
is [v, v]: non-decreasing, but not strictly increasing. -/
theorem C5_amended_duplicate_insert (v : Int) :
    peekE (runOps emptyTree [.insOp v, .insOp v]) (fun t => vals t F0) =
      .ok [v, v]
  ∧ peekE (runOps emptyTree [.insOp v, .insOp v]) (fun t => size t F0) = .ok 2
  ∧ nonDecr [v, v] = true
  ∧ strictIncr [v, v] = false := by
  have h : ¬ (v < v) := lt_irrefl v
  refine ⟨?_, ?_, by simp [nonDecr], by simp [strictIncr, h]⟩ <;>
    simp [runOps, stepOp, insert, createNode, insertDescend,
      fixInsertionViolations, fixInsLoop, look, setC, setL, setR, setP,
      writeNode, emptyTree, F0, peekE, vals, seq, size, sizeNode, h,
      Except.map, Except.bind, bind, pure, Except.pure]

/-- C6: for the bool-returning insert of the tree the map is built on
(modelled from the spec, the header being absent from src/), the
returned boolean is true exactly when the call created a new node. -/
theorem C6_insert_bool_iff_created (t : BT) (v : Int) :
    (insertSpecModel t v).1 = true ↔
      (insertSpecModel t v).2.count = t.count + 1 := by
  have h := bstInsert_cases t v
  unfold insertSpecModel
  rcases h with ⟨h1, h2⟩ | ⟨h1, h2⟩ <;> simp [count_blackenRoot, h1, h2]

/-- C7 counterexample: in the concrete scenario insert 10, 20, 30 then
remove 20, the resulting tree has root 30 (black) but its left child 10
is RED, not black as claimed: the physically removed color is the
successor color (red), so deletion fix-up never runs and 10 keeps the
red color it had. -/
theorem C7_left_child_red_not_black :
    peek (runOps emptyTree [.insOp 10, .insOp 20, .insOp 30, .remValOp 20])
      (fun t => (t.root, t.heap 2, t.heap 0)) =
      .ok (some 2,
        some { parent := none, right := none, left := some 0,
               data := 30, color := .BLACK },
        some { parent := some 2, right := none, left := none,
               data := 10, color := .RED }) := by decide

/-- C7 as amended: insert 10, 20, 30 gives root 20 black with red
children 10 and 30; removing 20 then gives root 30 black with red left
child 10 (deletion fix-up does not run because the successor 30 was
red), size 2 and in-order sequence [10, 30]. -/
theorem C7_scenario_amended :
    peek (runOps emptyTree [.insOp 10, .insOp 20, .insOp 30])
      (fun t => (t.root, t.heap 1, t.heap 0, t.heap 2)) =
      .ok (some 1,
        some { parent := none, right := some 2, left := some 0,
               data := 20, color := .BLACK },
        some { parent := some 1, right := none, left := none,
               data := 10, color := .RED },
        some { parent := some 1, right := none, left := none,
               data := 30, color := .RED })
  ∧ peek (runOps emptyTree [.insOp 10, .insOp 20, .insOp 30, .remValOp 20])
      (fun t => (t.root, t.heap 2, t.heap 0)) =
      .ok (some 2,
        some { parent := none, right := none, left := some 0,
               data := 30, color := .BLACK },
        some { parent := some 2, right := none, left := none,
               data := 10, color := .RED })
  ∧ peekE (runOps emptyTree [.insOp 10, .insOp 20, .insOp 30, .remValOp 20])
      (fun t => size t F0) = .ok 2
  ∧ peekE (runOps emptyTree [.insOp 10, .insOp 20, .insOp 30, .remValOp 20])
      (fun t => vals t F0) = .ok [10, 30] := by decide

/-- C8: for every node `x` with a non-nil right child `y` — in any heap
whose subtree at `x` renders to a duplicate-free address list and whose
parent of `x` (if any) is live and outside that subtree — `leftRotate`
succeeds and: changes no color of any node, preserves the in-order
sequence of stored values (the rotated subtree, now rooted at the pivot
child `y`, renders to the same list), re-parents the pivot child
opposite-side subtree (the left subtree of `y`) onto `x` (both the
`right` pointer of `x` and the `parent` back-link of that subtree
root), makes the former parent of `x` point at the pivot child in the
slot `x` occupied, and updates the root reference to the pivot child
exactly when `x` had no parent; and mirror-wise for `rightRotate` at a
node with a non-nil left child. -/
theorem C8_rotations :
    (∀ (t : RBTree) (x y : Nat) (nx ny : RBNode) (F : Nat)
        (l : List (Nat × Int)),
      t.heap x = some nx → nx.right = some y → t.heap y = some ny →
      seq t F (some x) = .ok l → (l.map Prod.fst).Nodup →
      (∀ p, nx.parent = some p →
        p ∉ l.map Prod.fst ∧ ∃ np, t.heap p = some np) →
      ∃ t', leftRotate t (some x) = .ok t' ∧
        (∀ i, (t'.heap i).map RBNode.color = (t.heap i).map RBNode.color) ∧
        seq t' (F+1) (some y) = .ok l ∧
        t'.heap x = some { nx with right := ny.left, parent := some y } ∧
        t'.heap y = some { ny with parent := nx.parent, left := some x } ∧
        (∀ b nb, ny.left = some b → t.heap b = some nb →
          t'.heap b = some { nb with parent := some x }) ∧
        (∀ p np, nx.parent = some p → t.heap p = some np →
          t'.heap p = some (if some x = np.left then { np with left := some y }
                            else { np with right := some y })) ∧
        t'.root = (if nx.parent = none then some y else t.root)) ∧
    (∀ (t : RBTree) (x y : Nat) (nx ny : RBNode) (F : Nat)
        (l : List (Nat × Int)),
      t.heap x = some nx → nx.left = some y → t.heap y = some ny →
      seq t F (some x) = .ok l → (l.map Prod.fst).Nodup →
      (∀ p, nx.parent = some p →
        p ∉ l.map Prod.fst ∧ ∃ np, t.heap p = some np) →
      ∃ t', rightRotate t (some x) = .ok t' ∧
        (∀ i, (t'.heap i).map RBNode.color = (t.heap i).map RBNode.color) ∧
        seq t' (F+1) (some y) = .ok l ∧
        t'.heap x = some { nx with left := ny.right, parent := some y } ∧
        t'.heap y = some { ny with parent := nx.parent, right := some x } ∧
        (∀ b nb, ny.right = some b → t.heap b = some nb →
          t'.heap b = some { nb with parent := some x }) ∧
        (∀ p np, nx.parent = some p → t.heap p = some np →
          t'.heap p = some (if some x = np.right then { np with right := some y }
                            else { np with left := some y })) ∧
        t'.root = (if nx.parent = none then some y else t.root)) :=
  ⟨fun t x y nx ny F l hx hr hy hs hn hp =>
    leftRotate_main t x y nx ny F l hx hr hy hs hn hp,
   fun t x y nx ny F l hx hr hy hs hn hp =>
    rightRotate_main t x y nx ny F l hx hr hy hs hn hp⟩

/-- Concrete six-node tree exercising the left-rotation theorem: root 0
is the parent of the rotated node 1, whose right child 2 has both an
inner subtree (node 3) and an outer one (node 4). -/
def wtL : RBTree :=
  { root := some 0,
    heap := fun j =>
      if j = 0 then some ⟨none, none, some 1, 0, .BLACK⟩
      else if j = 1 then some ⟨some 0, some 2, some 5, 10, .BLACK⟩
      else if j = 2 then some ⟨some 1, some 4, some 3, 30, .RED⟩
      else if j = 3 then some ⟨some 2, none, none, 20, .BLACK⟩
      else if j = 4 then some ⟨some 2, none, none, 40, .BLACK⟩
      else if j = 5 then some ⟨some 1, none, none, 5, .BLACK⟩
      else none,
    next := 6 }

/-- Mirror tree exercising the right-rotation theorem. -/
def wtR : RBTree :=
  { root := some 0,
    heap := fun j =>
      if j = 0 then some ⟨none, some 1, none, 100, .BLACK⟩
      else if j = 1 then some ⟨some 0, some 5, some 2, 50, .BLACK⟩
      else if j = 2 then some ⟨some 1, some 4, some 3, 30, .RED⟩
      else if j = 3 then some ⟨some 2, none, none, 20, .BLACK⟩
      else if j = 4 then some ⟨some 2, none, none, 40, .BLACK⟩
      else if j = 5 then some ⟨some 1, none, none, 60, .BLACK⟩
      else none,
    next := 6 }

/-- Witness for C8: both halves applied at six-node trees whose rotated
node has a parent, an inner grandchild subtree and an outer one. -/
theorem C8_rotations_witness :
    (wtL.heap 1 = some ⟨some 0, some 2, some 5, 10, .BLACK⟩
     ∧ seq wtL 3 (some 1) = .ok [(5, 5), (1, 10), (3, 20), (2, 30), (4, 40)]
     ∧ (([(5, 5), (1, 10), (3, 20), (2, 30), (4, 40)] :
          List (Nat × Int)).map Prod.fst).Nodup
     ∧ ∃ t', leftRotate wtL (some 1) = .ok t' ∧
        (∀ i, (t'.heap i).map RBNode.color = (wtL.heap i).map RBNode.color) ∧
        seq t' 4 (some 2) = .ok [(5, 5), (1, 10), (3, 20), (2, 30), (4, 40)] ∧
        t'.heap 1 = some ⟨some 2, some 3, some 5, 10, .BLACK⟩ ∧
        t'.heap 2 = some ⟨some 0, some 4, some 1, 30, .RED⟩ ∧
        (∀ b nb, (some 3 : Option Nat) = some b → wtL.heap b = some nb →
          t'.heap b = some { nb with parent := some 1 }) ∧
        (∀ p np, (some 0 : Option Nat) = some p → wtL.heap p = some np →
          t'.heap p = some (if some 1 = np.left then { np with left := some 2 }
                            else { np with right := some 2 })) ∧
        t'.root = some 0)
    ∧ (wtR.heap 1 = some ⟨some 0, some 5, some 2, 50, .BLACK⟩
     ∧ seq wtR 3 (some 1) = .ok [(3, 20), (2, 30), (4, 40), (1, 50), (5, 60)]
     ∧ ∃ t', rightRotate wtR (some 1) = .ok t' ∧
        (∀ i, (t'.heap i).map RBNode.color = (wtR.heap i).map RBNode.color) ∧
        seq t' 4 (some 2) = .ok [(3, 20), (2, 30), (4, 40), (1, 50), (5, 60)] ∧
        t'.heap 1 = some ⟨some 2, some 5, some 4, 50, .BLACK⟩ ∧
        t'.heap 2 = some ⟨some 0, some 1, some 3, 30, .RED⟩ ∧
        t'.root = some 0) := by
  have hparL : ∀ p, (⟨some 0, some 2, some 5, 10, .BLACK⟩ : RBNode).parent = some p →
      p ∉ (([(5, 5), (1, 10), (3, 20), (2, 30), (4, 40)] :
        List (Nat × Int)).map Prod.fst) ∧ ∃ np, wtL.heap p = some np := by
    intro p hp
    have hp0 : p = 0 := by injection hp with h; exact h.symm
    subst hp0
    exact ⟨by decide, ⟨⟨none, none, some 1, 0, .BLACK⟩, rfl⟩⟩
  have hparR : ∀ p, (⟨some 0, some 5, some 2, 50, .BLACK⟩ : RBNode).parent = some p →
      p ∉ (([(3, 20), (2, 30), (4, 40), (1, 50), (5, 60)] :
        List (Nat × Int)).map Prod.fst) ∧ ∃ np, wtR.heap p = some np := by
    intro p hp
    have hp0 : p = 0 := by injection hp with h; exact h.symm
    subst hp0
    exact ⟨by decide, ⟨⟨none, some 1, none, 100, .BLACK⟩, rfl⟩⟩
  have hL := C8_rotations.1 wtL 1 2 ⟨some 0, some 2, some 5, 10, .BLACK⟩
    ⟨some 1, some 4, some 3, 30, .RED⟩ 3
    [(5, 5), (1, 10), (3, 20), (2, 30), (4, 40)]
    rfl rfl rfl (by decide) (by decide) hparL
  have hR := C8_rotations.2 wtR 1 2 ⟨some 0, some 5, some 2, 50, .BLACK⟩
    ⟨some 1, some 4, some 3, 30, .RED⟩ 3
    [(3, 20), (2, 30), (4, 40), (1, 50), (5, 60)]
    rfl rfl rfl (by decide) (by decide) hparR
  obtain ⟨t1, h1, h2, h3, h4, h5, h6, h7, h8⟩ := hL
  obtain ⟨t2, g1, g2, g3, g4, g5, g6, g7, g8⟩ := hR
  refine ⟨⟨rfl, by decide, by decide, t1, h1, h2, h3, h4, h5, h6, h7, ?_⟩,
          rfl, by decide, t2, g1, g2, g3, g4, g5, ?_⟩
  · rw [h8]; rfl
  · rw [g8]; rfl

/-- C9: the claim that iteration from `first()` by `next_inorder` always
yields a non-decreasing sequence of `size()` values fails on the code.
On the reachable tree built by insert 2, 1, 4, 3, 5 and removal of the
node holding 2 (whose two-child case leaves the node of value 4 as its
own parent), the iteration visits 1, 3, 4, 5, 4, 5, ... — it revisits
4 after 5 (a decreasing step) and never reaches nil (20 visits exceed
`size() = 4` without terminating). -/
theorem C9_traversal_decreases_and_diverges :
    peekE (runOps emptyTree [.insOp 2, .insOp 1, .insOp 4, .insOp 3, .insOp 5,
        .remNodeOp 0]) (fun t => size t F0) = .ok 4
  ∧ peekE (runOps emptyTree [.insOp 2, .insOp 1, .insOp 4, .insOp 3, .insOp 5,
        .remNodeOp 0]) (fun t => do iterFirstN t 6 (← first t F0)) =
      .ok [1, 3, 4, 5, 4, 5]
  ∧ nonDecr [1, 3, 4, 5, 4, 5] = false
  ∧ peekE (runOps emptyTree [.insOp 2, .insOp 1, .insOp 4, .insOp 3, .insOp 5,
        .remNodeOp 0]) (fun t => do iterInorder t 20 (← first t F0)) =
      .error .fuel := by decide

/-- C10: `next_inorder` called on a nil node handle returns nil for
every tree and every fuel, as the source checks the argument against
null before any dereference. -/
theorem C10_next_inorder_nil (t : RBTree) (fuel : Nat) :
    next_inorder t none fuel = .ok none := rfl

end RBT
